import Mathlib

/-!
Verification development for the 2D feature-tracking code in
`src/matching2D_Student.cpp`.

The Harris keypoint extraction (`detKeypointsHarris`) and the descriptor
matching front end (`matchDescriptors`) are embedded shallowly: the
normalized Harris response matrix `dst_norm` becomes a row-major grid of
rationals, keypoints and matches become records over `ℚ` (exact stand-ins
for the source's floats), and the imperative loops become folds.  External
vision-library primitives (`cornerHarris`, `normalize`, `knnMatch`,
`match`, the detector and extractor factories) are not part of the
repository; where a claim needs their behaviour they are modelled from the
specification and marked so in their doc comments.
-/

/-- Embeds `cv::KeyPoint` as used by this repository: position `pt = (x, y)`,
`size`, and `response`, all real-valued in the source (floats), modelled
exactly over `ℚ`. -/
structure KeyPoint where
  x : ℚ
  y : ℚ
  size : ℚ
  response : ℚ
  deriving DecidableEq, Repr

/-- Embeds the C cast `(int)v` applied to the float response
(`int response = (int)dst_norm.at<float>(i, j)`): truncation toward zero. -/
def ratTrunc (q : ℚ) : Int :=
  if 0 ≤ q then q.floor else -((-q).floor)

/-- Squared Euclidean distance between the centres of two keypoints.
`cv::KeyPoint::overlap` compares the centre distance `c = norm(p1 - p2)`
only against other nonnegative quantities, so all its comparisons are
decided here exactly on squares. -/
def dist2 (a b : KeyPoint) : ℚ :=
  (a.x - b.x) ^ 2 + (a.y - b.y) ^ 2

/-- Exact predicate for `cv::KeyPoint::overlap(a, b) > 0`, which is the
comparison `kptOverlap > maxOverlap` of `detKeypointsHarris` with its
configured `maxOverlap = 0.0`.  Following the library source: with radii
`ra = a.size/2`, `rb = b.size/2` and centre distance `c`, if
`min ra rb + c ≤ max ra rb` (one circle inside the other, decided here as
`c² ≤ (ra - rb)²`) the overlap value is `min(ra², rb²)/max(ra², rb²)`;
otherwise, if `c < ra + rb` the circles cut out a lens of positive area, so
the intersection-over-union is positive; otherwise the overlap is zero. -/
def overlapGtZero (a b : KeyPoint) : Bool :=
  if dist2 a b ≤ (a.size / 2 - b.size / 2) ^ 2 then
    decide (0 < min ((a.size / 2) ^ 2) ((b.size / 2) ^ 2) /
      max ((a.size / 2) ^ 2) ((b.size / 2) ^ 2))
  else
    decide (0 < a.size / 2 + b.size / 2) &&
      decide (dist2 a b < (a.size / 2 + b.size / 2) ^ 2)

/-- Embeds the inner NMS scan of `detKeypointsHarris` (the
`for (auto it = keypoints.begin(); ...)` loop): walk the accumulated
`keypoints`, flagging `bOverlap` as soon as some incumbent overlaps the
candidate `c` beyond the threshold, and when the candidate's response is
strictly greater than such an incumbent's, replace that incumbent in place
and stop scanning (`break`).  Returns the updated list together with the
final `bOverlap` flag. -/
def nmsScan (ovlGt : KeyPoint → KeyPoint → Bool) (c : KeyPoint) :
    List KeyPoint → List KeyPoint × Bool
  | [] => ([], false)
  | k :: rest =>
    if ovlGt c k then
      if k.response < c.response then
        (c :: rest, true)
      else
        let p := nmsScan ovlGt c rest
        (k :: p.1, true)
    else
      let p := nmsScan ovlGt c rest
      (k :: p.1, p.2)

/-- Embeds one full NMS iteration of `detKeypointsHarris` for a single
candidate: run the scan, then push the candidate at the end only when no
overlap was found (`if (!bOverlap) keypoints.push_back(newKeyPoint)`). -/
def nmsStep (ovlGt : KeyPoint → KeyPoint → Bool)
    (keypoints : List KeyPoint) (c : KeyPoint) : List KeyPoint :=
  let p := nmsScan ovlGt c keypoints
  if p.2 then p.1 else p.1 ++ [c]

/-- Whether processing candidate `c` against the accumulated list performs
an in-place replacement: some incumbent overlaps `c` and has a strictly
lower response. -/
def stepReplaces (ovlGt : KeyPoint → KeyPoint → Bool)
    (keypoints : List KeyPoint) (c : KeyPoint) : Bool :=
  keypoints.any fun k => ovlGt c k && decide (k.response < c.response)

/-- Replace the first incumbent that overlaps `c` with a strictly lower
response; leave everything else untouched.  Used to characterize
`nmsStep`. -/
def replaceFirstLower (ovlGt : KeyPoint → KeyPoint → Bool) (c : KeyPoint) :
    List KeyPoint → List KeyPoint
  | [] => []
  | k :: rest =>
    if ovlGt c k && decide (k.response < c.response) then c :: rest
    else k :: replaceFirstLower ovlGt c rest

/-- The hardcoded `apertureSize = 3` of `detKeypointsHarris` (Sobel
aperture); candidate keypoints get `size = 2 * apertureSize`. -/
def apertureSize : ℚ := 3

/-- The hardcoded response threshold `minResponse = 120` of
`detKeypointsHarris`. -/
def minResponse : Int := 120

/-- Row-major enumeration `(i, j, value)` of the normalized response grid,
matching the nested `for (i over rows) for (j over cols)` scan. -/
def pixelsOf (dst_norm : List (List ℚ)) : List (ℕ × ℕ × ℚ) :=
  (dst_norm.enum.map fun p => p.2.enum.map fun q => (p.1, q.1, q.2)).flatten

/-- Embeds the body of the pixel loop of `detKeypointsHarris`: truncate the
response, and when it strictly exceeds the threshold build the candidate at
`pt = (j, i)` with `size = 2 * apertureSize` and the truncated response,
then run one NMS iteration against the accumulated keypoints. -/
def harrisPixel (minResp : Int) (keypoints : List KeyPoint)
    (px : ℕ × ℕ × ℚ) : List KeyPoint :=
  let response := ratTrunc px.2.2
  if minResp < response then
    nmsStep overlapGtZero keypoints
      ⟨(px.2.1 : ℚ), (px.1 : ℚ), 2 * apertureSize, (response : ℚ)⟩
  else keypoints

/-- Embeds `detKeypointsHarris` from the normalized response matrix
`dst_norm` on, with the response threshold exposed as a parameter:
row-major scan of the grid, per-pixel candidate construction and
non-maximum suppression, accumulating into the caller-supplied `keypoints`
list (which the source never clears). -/
def detKeypointsHarrisWith (minResp : Int) (keypoints : List KeyPoint)
    (dst_norm : List (List ℚ)) : List KeyPoint :=
  (pixelsOf dst_norm).foldl (harrisPixel minResp) keypoints

/-- Embeds `detKeypointsHarris` with the source's hardcoded
`minResponse = 120`. -/
def detKeypointsHarris (keypoints : List KeyPoint)
    (dst_norm : List (List ℚ)) : List KeyPoint :=
  detKeypointsHarrisWith minResponse keypoints dst_norm

/-- The candidate keypoint built at pixel `(i, j, v)` when its truncated
response strictly exceeds the threshold, `none` otherwise. -/
def harrisCand (minResp : Int) (px : ℕ × ℕ × ℚ) : Option KeyPoint :=
  let r := ratTrunc px.2.2
  if minResp < r then
    some ⟨(px.2.1 : ℚ), (px.1 : ℚ), 2 * apertureSize, (r : ℚ)⟩
  else none

/-- The pre-NMS candidate sequence of `detKeypointsHarris`: keypoints built
at every pixel whose truncated normalized response strictly exceeds the
threshold, in row-major scan order. -/
def candidatesOf (minResp : Int) (dst_norm : List (List ℚ)) : List KeyPoint :=
  (pixelsOf dst_norm).filterMap (harrisCand minResp)

/-- Boolean check that no two keypoints of the list overlap positively (in
the sense of `overlapGtZero`). -/
def pairwiseNoOvl : List KeyPoint → Bool
  | [] => true
  | k :: rest => (rest.all fun k2 => !overlapGtZero k k2) && pairwiseNoOvl rest

/-- Whether a whole NMS run over the candidate list, started from the given
accumulated keypoints, never performs an in-place replacement (every
candidate is either pushed as new or dropped). -/
def runNoReplace (ovlGt : KeyPoint → KeyPoint → Bool) :
    List KeyPoint → List KeyPoint → Bool
  | _, [] => true
  | kps, c :: cs =>
    !stepReplaces ovlGt kps c && runNoReplace ovlGt (nmsStep ovlGt kps c) cs

/-- Embeds `cv::DMatch`: source (query) index, reference (train) index and
descriptor-space distance. -/
structure DMatch where
  queryIdx : ℕ
  trainIdx : ℕ
  distance : ℚ
  deriving DecidableEq, Repr

/-- Embeds the observable state of a `cv::Mat` holding descriptors: the
element type tag and the row vectors. -/
structure Mat where
  mtype : Int
  data : List (List ℚ)
  deriving DecidableEq, Repr

/-- The OpenCV type tag `CV_32F`. -/
def CV_32F : Int := 5

/-- The OpenCV type tag `CV_8U` (binary descriptors). -/
def CV_8U : Int := 0

/-- Embeds `m.convertTo(m, CV_32F)` on a descriptor matrix: the element
type becomes `CV_32F`; in this exact model the stored values are kept (the
claims about this call concern the type retag, not float rounding). -/
def convertTo32F (m : Mat) : Mat :=
  { m with mtype := CV_32F }

/-- Insert a match into a length-≤-2 ascending-by-distance list, keeping
the two smallest distances (earlier reference index wins ties). -/
def insert2 (acc : List DMatch) (m : DMatch) : List DMatch :=
  match acc with
  | [] => [m]
  | [a] => if m.distance < a.distance then [m, a] else [a, m]
  | a :: b :: _ =>
    if m.distance < a.distance then [m, a]
    else if m.distance < b.distance then [a, m]
    else [a, b]

/-- Modelled from the spec: the library call `matcher->knnMatch(..., 2)`
"retrieves the two nearest reference descriptors per source descriptor".
For one source descriptor `d` with query index `qi`, returns the matches to
the (up to) two nearest reference descriptors, nearest first. -/
def twoNearest (dist : List ℚ → List ℚ → ℚ) (qi : ℕ) (d : List ℚ)
    (ref : List (List ℚ)) : List DMatch :=
  (ref.enum.map fun p => DMatch.mk qi p.1 (dist d p.2)).foldl insert2 []

/-- Modelled from the spec: `matcher->knnMatch(descSource, descRef,
knn_matches, 2)` — one list of (up to) two nearest reference matches per
source descriptor, in source order. -/
def knnMatch2 (dist : List ℚ → List ℚ → ℚ) (src ref : List (List ℚ)) :
    List (List DMatch) :=
  src.enum.map fun p => twoNearest dist p.1 p.2 ref

/-- Modelled from the spec: the single globally nearest reference match for
one source descriptor, `none` when the reference set is empty. -/
def nearest1 (dist : List ℚ → List ℚ → ℚ) (qi : ℕ) (d : List ℚ)
    (ref : List (List ℚ)) : Option DMatch :=
  (ref.enum.map fun p => DMatch.mk qi p.1 (dist d p.2)).foldl
    (fun best m =>
      match best with
      | none => some m
      | some b => if m.distance < b.distance then some m else some b)
    none

/-- Modelled from the spec: `matcher->match(descSource, descRef, matches)`
for the `SEL_NN` selector "returns exactly one match per source descriptor
(the globally nearest in the reference set)"; with an empty reference set a
source descriptor yields nothing. -/
def matchNN (dist : List ℚ → List ℚ → ℚ) (src ref : List (List ℚ)) :
    List DMatch :=
  src.enum.filterMap fun p => nearest1 dist p.1 p.2 ref

/-- The hardcoded descriptor distance ratio `min_desc_dist_ratio = 0.8` of
the `SEL_KNN` branch of `matchDescriptors`. -/
def distRatioMin : ℚ := 0.8

/-- One iteration of the ratio-test loop of `matchDescriptors` (`SEL_KNN`):
read `(*it)[0]` and `(*it)[1]` — an out-of-bounds read (modelled as `none`)
when the inner list has fewer than two entries — and append `(*it)[0]` to
the accumulated matches when
`(*it)[0].distance < min_desc_dist_ratio * (*it)[1].distance`. -/
def ratioFilterStep (matchesIn : List DMatch) (m : List DMatch) :
    Option (List DMatch) := do
  let m0 ← m.get? 0
  let m1 ← m.get? 1
  pure (if m0.distance < distRatioMin * m1.distance then matchesIn ++ [m0]
    else matchesIn)

/-- The whole ratio-test loop of `matchDescriptors` (`SEL_KNN`), appending
onto the caller-supplied `matches` vector (which the source never
clears in this branch). -/
def ratioFilter (matchesIn : List DMatch) (knn : List (List DMatch)) :
    Option (List DMatch) :=
  knn.foldlM ratioFilterStep matchesIn

/-- The match that the ratio test keeps from one k-nearest-neighbour list:
its first entry when its distance beats `distRatioMin` times the second
entry's distance; nothing otherwise.  Used to characterize `ratioFilter`. -/
def ratioPick (m : List DMatch) : Option DMatch :=
  match m.get? 0, m.get? 1 with
  | some m0, some m1 =>
    if m0.distance < distRatioMin * m1.distance then some m0 else none
  | _, _ => none

/-- Embeds `matchDescriptors`.  The library search itself (brute force or
FLANN) is abstracted into `dist`, the descriptor-space distance the
configured norm induces (`NORM_HAMMING` for `DES_BINARY`, else `NORM_L2`);
the keypoint vector parameters of the source are unused there and omitted.
Faithful to the source: with `MAT_FLANN`, when either descriptor matrix is
not of type `CV_32F` both caller matrices are converted in place; with a
matcher type matching neither branch the matcher handle stays unset, so the
`SEL_NN`/`SEL_KNN` calls dereference null (modelled `none`); with a
selector matching neither branch nothing happens and the caller's `matches`
is returned as passed in.  Returns the final states of the two descriptor
matrices and of `matches`. -/
def matchDescriptors (dist : List ℚ → List ℚ → ℚ) (descSource descRef : Mat)
    (matchesIn : List DMatch) (matcherType selectorType : String) :
    Option (Mat × Mat × List DMatch) :=
  let matcherSet := matcherType = "MAT_BF" ∨ matcherType = "MAT_FLANN"
  let conv := matcherType = "MAT_FLANN" ∧
    (descSource.mtype ≠ CV_32F ∨ descRef.mtype ≠ CV_32F)
  let descSource := if conv then convertTo32F descSource else descSource
  let descRef := if conv then convertTo32F descRef else descRef
  if selectorType = "SEL_NN" then
    if matcherSet then
      some (descSource, descRef, matchNN dist descSource.data descRef.data)
    else none
  else if selectorType = "SEL_KNN" then
    if matcherSet then
      (ratioFilter matchesIn (knnMatch2 dist descSource.data descRef.data)).map
        fun ms => (descSource, descRef, ms)
    else none
  else some (descSource, descRef, matchesIn)

/-- A concrete one-dimensional descriptor distance (absolute difference of
the leading coordinates), used for closed instances. -/
def dist1 (a b : List ℚ) : ℚ :=
  if a.headD 0 ≤ b.headD 0 then b.headD 0 - a.headD 0 else a.headD 0 - b.headD 0

/-- The descriptor extractors `descKeypoints` can actually instantiate: the
`FREAK` and `SIFT` branches of the source have their `create` calls
commented out, so only these three set the handle. -/
inductive DescExtractorKind where
  | BRISK
  | ORB
  | AKAZE
  deriving DecidableEq, Repr

/-- Embeds the string dispatch of `descKeypoints`: `none` when the
extractor handle is left unset — the commented-out `FREAK` and `SIFT`
branches and the final `else { /* Do Nothing */ }` fallthrough. -/
def selectDescriptorExtractor (descriptorType : String) :
    Option DescExtractorKind :=
  if descriptorType = "BRISK" then some DescExtractorKind.BRISK
  else if descriptorType = "ORB" then some DescExtractorKind.ORB
  else if descriptorType = "AKAZE" then some DescExtractorKind.AKAZE
  else if descriptorType = "FREAK" then none
  else if descriptorType = "SIFT" then none
  else none

/-- Embeds `descKeypoints`: dispatch on the descriptor type, then call
`extractor->compute` — a library call, abstracted as `libCompute`.  When
the dispatch left the handle unset the call dereferences null, which the
library turns into its own error path (modelled `none`): the function
raises no explicit error of its own. -/
def descKeypoints
    (libCompute : DescExtractorKind → List (List ℚ) → List KeyPoint →
      List KeyPoint × Mat)
    (keypoints : List KeyPoint) (img : List (List ℚ))
    (descriptorType : String) : Option (List KeyPoint × Mat) :=
  (selectDescriptorExtractor descriptorType).map fun k =>
    libCompute k img keypoints

/-- The detectors `detKeypointsModern` can actually instantiate: the
`FREAK` and `SIFT` branches of the source have their `create` calls
commented out, so only these four set the handle. -/
inductive DetectorKind where
  | FAST
  | BRISK
  | ORB
  | AKAZE
  deriving DecidableEq, Repr

/-- Embeds the string dispatch of `detKeypointsModern`: `none` when the
detector handle is left unset — the commented-out `FREAK` and `SIFT`
branches and the final `else { /* Do nothing */ }` fallthrough. -/
def selectDetector (detectorType : String) : Option DetectorKind :=
  if detectorType = "FAST" then some DetectorKind.FAST
  else if detectorType = "BRISK" then some DetectorKind.BRISK
  else if detectorType = "ORB" then some DetectorKind.ORB
  else if detectorType = "AKAZE" then some DetectorKind.AKAZE
  else if detectorType = "FREAK" then none
  else if detectorType = "SIFT" then none
  else none

/-- Embeds `detKeypointsModern`: dispatch on the detector type, then call
`detector->detect` — a library call, abstracted as `libDetect`.  When the
dispatch left the handle unset the call dereferences null, which the
library turns into its own error path (modelled `none`): the function
raises no explicit error of its own. -/
def detKeypointsModern (libDetect : DetectorKind → List (List ℚ) → List KeyPoint)
    (img : List (List ℚ)) (detectorType : String) : Option (List KeyPoint) :=
  (selectDetector detectorType).map fun k => libDetect k img

theorem nmsScan_flag (ovlGt : KeyPoint → KeyPoint → Bool) (c : KeyPoint) :
    ∀ l : List KeyPoint, (nmsScan ovlGt c l).2 = l.any fun k => ovlGt c k := by
  intro l
  induction l with
  | nil => rfl
  | cons k rest ih =>
    by_cases h1 : ovlGt c k = true
    · by_cases h2 : k.response < c.response
      · simp [nmsScan, h1, h2]
      · simp [nmsScan, h1, h2]
    · simp only [Bool.not_eq_true] at h1
      simp [nmsScan, h1, ih]

theorem stepReplaces_cons (ovlGt : KeyPoint → KeyPoint → Bool)
    (k c : KeyPoint) (rest : List KeyPoint) :
    stepReplaces ovlGt (k :: rest) c =
      ((ovlGt c k && decide (k.response < c.response)) ||
        stepReplaces ovlGt rest c) := by
  simp [stepReplaces]

theorem nmsScan_list (ovlGt : KeyPoint → KeyPoint → Bool) (c : KeyPoint) :
    ∀ l : List KeyPoint, (nmsScan ovlGt c l).1 =
      if stepReplaces ovlGt l c then replaceFirstLower ovlGt c l else l := by
  intro l
  induction l with
  | nil => simp [nmsScan, stepReplaces]
  | cons k rest ih =>
    by_cases h1 : ovlGt c k = true
    · by_cases h2 : k.response < c.response
      · have hs : stepReplaces ovlGt (k :: rest) c = true := by
          simp [stepReplaces, List.any_cons, h1, h2]
        simp [nmsScan, replaceFirstLower, h1, h2, hs]
      · have hs : stepReplaces ovlGt (k :: rest) c = stepReplaces ovlGt rest c := by
          simp [stepReplaces, List.any_cons, h1, h2]
        simp [nmsScan, replaceFirstLower, h1, h2, hs, ih, apply_ite (List.cons k)]
    · have h1f : ovlGt c k = false := by simpa using h1
      have hs : stepReplaces ovlGt (k :: rest) c = stepReplaces ovlGt rest c := by
        simp [stepReplaces, List.any_cons, h1f]
      simp [nmsScan, replaceFirstLower, h1f, hs, ih, apply_ite (List.cons k)]

theorem stepReplaces_any (ovlGt : KeyPoint → KeyPoint → Bool)
    (kps : List KeyPoint) (c : KeyPoint) (h : stepReplaces ovlGt kps c = true) :
    (kps.any fun k => ovlGt c k) = true := by
  simp only [stepReplaces, List.any_eq_true, Bool.and_eq_true] at h ⊢
  obtain ⟨k, hk, h1, _⟩ := h
  exact ⟨k, hk, h1⟩

theorem nmsStep_eq (ovlGt : KeyPoint → KeyPoint → Bool)
    (kps : List KeyPoint) (c : KeyPoint) :
    nmsStep ovlGt kps c =
      if stepReplaces ovlGt kps c then replaceFirstLower ovlGt c kps
      else if kps.any (fun k => ovlGt c k) then kps else kps ++ [c] := by
  simp only [nmsStep, nmsScan_flag, nmsScan_list]
  by_cases hrep : stepReplaces ovlGt kps c = true
  · simp [hrep, stepReplaces_any ovlGt kps c hrep]
  · by_cases hany : (kps.any fun k => ovlGt c k) = true <;> simp [hrep, hany]

theorem dist2_symm (a b : KeyPoint) : dist2 a b = dist2 b a := by
  unfold dist2
  ring

theorem overlapGtZero_symm (a b : KeyPoint) :
    overlapGtZero a b = overlapGtZero b a := by
  unfold overlapGtZero
  have h1 : (a.size / 2 - b.size / 2) ^ 2 = (b.size / 2 - a.size / 2) ^ 2 := by
    ring
  have h2 : a.size / 2 + b.size / 2 = b.size / 2 + a.size / 2 := by
    ring
  rw [dist2_symm, h1, h2, min_comm, max_comm]

theorem pairwiseNoOvl_append (l : List KeyPoint) (c : KeyPoint)
    (hp : pairwiseNoOvl l = true)
    (hc : ∀ k ∈ l, overlapGtZero c k = false) :
    pairwiseNoOvl (l ++ [c]) = true := by
  induction l with
  | nil => simp [pairwiseNoOvl]
  | cons k rest ih =>
    simp only [pairwiseNoOvl, Bool.and_eq_true, List.all_eq_true] at hp
    simp only [List.cons_append, pairwiseNoOvl, Bool.and_eq_true, List.all_eq_true]
    refine ⟨?_, ih hp.2 fun k2 hk2 => hc k2 (List.mem_cons_of_mem k hk2)⟩
    intro k2 hk2
    rcases List.mem_append.mp hk2 with h | h
    · simpa using hp.1 k2 h
    · have he : k2 = c := by simpa using h
      have hck : overlapGtZero c k = false := hc k (List.mem_cons_self k rest)
      rw [he]
      simp [overlapGtZero_symm k c, hck]

theorem runNoReplace_pairwise (cs : List KeyPoint) :
    ∀ kps : List KeyPoint, pairwiseNoOvl kps = true →
      runNoReplace overlapGtZero kps cs = true →
      pairwiseNoOvl (cs.foldl (nmsStep overlapGtZero) kps) = true := by
  induction cs with
  | nil => intro kps hp _; simpa using hp
  | cons c cs ih =>
    intro kps hp hr
    simp only [runNoReplace, Bool.and_eq_true, Bool.not_eq_true'] at hr
    obtain ⟨h1, h2⟩ := hr
    simp only [List.foldl_cons]
    by_cases hany : (kps.any fun k => overlapGtZero c k) = true
    · have hstep : nmsStep overlapGtZero kps c = kps := by
        rw [nmsStep_eq, h1]
        simp [hany]
      rw [hstep] at h2 ⊢
      exact ih kps hp h2
    · have hall : ∀ k ∈ kps, overlapGtZero c k = false := by
        intro k hk
        by_contra hne
        exact hany (List.any_eq_true.mpr ⟨k, hk, by simpa using hne⟩)
      have hstep : nmsStep overlapGtZero kps c = kps ++ [c] := by
        rw [nmsStep_eq, h1]
        simp [hany]
      rw [hstep] at h2 ⊢
      exact ih (kps ++ [c]) (pairwiseNoOvl_append kps c hp hall) h2

theorem foldl_harrisPixel_filterMap (minResp : Int) :
    ∀ (l : List (ℕ × ℕ × ℚ)) (kps : List KeyPoint),
      l.foldl (harrisPixel minResp) kps =
        (l.filterMap (harrisCand minResp)).foldl (nmsStep overlapGtZero) kps := by
  intro l
  induction l with
  | nil => intro kps; rfl
  | cons px rest ih =>
    intro kps
    by_cases h : minResp < ratTrunc px.2.2
    · simp only [List.foldl_cons, List.filterMap_cons, harrisPixel, harrisCand,
        if_pos h]
      exact ih _
    · simp only [List.foldl_cons, List.filterMap_cons, harrisPixel, harrisCand,
        if_neg h]
      exact ih _

theorem detKeypointsHarrisWith_eq (minResp : Int) (keypoints : List KeyPoint)
    (dst_norm : List (List ℚ)) :
    detKeypointsHarrisWith minResp keypoints dst_norm =
      (candidatesOf minResp dst_norm).foldl (nmsStep overlapGtZero) keypoints := by
  unfold detKeypointsHarrisWith candidatesOf
  exact foldl_harrisPixel_filterMap minResp (pixelsOf dst_norm) keypoints

/-- C1 counterexample: with the configured `maxOverlap = 0` and an empty
initial keypoint list, the Harris extraction on this grid returns two
keypoints with positive pairwise overlap.  The candidates at `(0,0)` and
`(6,0)` (responses 130) do not overlap each other and are both kept; the
later candidate at `(3,1)` (response 200) overlaps both, replaces only the
first one found, and ends up overlapping the surviving second one. -/
theorem harris_nms_overlap_free_cex :
    pairwiseNoOvl
      (detKeypointsHarris [] [[130, 0, 0, 0, 0, 0, 130], [0, 0, 0, 200]]) =
      false := by
  with_unfolding_all rfl

/-- C1 (amended): with the configured `maxOverlap = 0`, the keypoint set
returned by the Harris NMS contains no two keypoints with positive pairwise
overlap provided the initial set is itself overlap-free and the run
performs no in-place replacement (every candidate is pushed as new or
dropped); a replacement can leave the replacing keypoint overlapping
another incumbent, as the counterexample shows. -/
theorem harris_nms_no_replacement_overlap_free
    (minResp : Int) (keypoints : List KeyPoint) (dst_norm : List (List ℚ))
    (hp : pairwiseNoOvl keypoints = true)
    (hr : runNoReplace overlapGtZero keypoints (candidatesOf minResp dst_norm) =
      true) :
    pairwiseNoOvl (detKeypointsHarrisWith minResp keypoints dst_norm) = true := by
  rw [detKeypointsHarrisWith_eq]
  exact runNoReplace_pairwise (candidatesOf minResp dst_norm) keypoints hp hr

/-- C1 witness: a concrete replacement-free run (two far-apart strong
pixels) whose result is pairwise overlap-free. -/
theorem harris_nms_no_replacement_overlap_free_witness :
    pairwiseNoOvl [] = true ∧
    runNoReplace overlapGtZero []
      (candidatesOf 120 [[130, 0, 0, 0, 0, 0, 0, 140]]) = true ∧
    pairwiseNoOvl (detKeypointsHarrisWith 120 []
      [[130, 0, 0, 0, 0, 0, 0, 140]]) = true :=
  ⟨by with_unfolding_all rfl, by with_unfolding_all rfl,
    harris_nms_no_replacement_overlap_free 120 []
      [[130, 0, 0, 0, 0, 0, 0, 140]]
      (by with_unfolding_all rfl) (by with_unfolding_all rfl)⟩

/-- C2 counterexample: initial keypoints `k1 = (0,0)` response 200 and
`k2 = (2,0)` response 130; the single candidate `(1,0)` response 150
overlaps `k1` first with a not-lower response, yet it is NOT dropped:
scanning continues and it replaces `k2`, so the result set is changed —
contradicting "the candidate is dropped and the existing keypoint (and the
rest of the result set) is left unchanged". -/
theorem harris_nms_first_match_drop_cex :
    detKeypointsHarris [⟨0, 0, 6, 200⟩, ⟨2, 0, 6, 130⟩] [[0, 150]] =
        [⟨0, 0, 6, 200⟩, ⟨1, 0, 6, 150⟩] ∧
      detKeypointsHarris [⟨0, 0, 6, 200⟩, ⟨2, 0, 6, 130⟩] [[0, 150]] ≠
        [⟨0, 0, 6, 200⟩, ⟨2, 0, 6, 130⟩] := by
  constructor
  · with_unfolding_all rfl
  · with_unfolding_all decide

/-- C2 (amended): one NMS iteration of the Harris loop replaces the first
incumbent (in result-set order) that overlaps the candidate with a strictly
lower response and stops scanning there; an overlapping incumbent whose
response is not lower is left unchanged but scanning continues past it, and
the candidate is dropped (result set unchanged) only when every overlapping
incumbent has a not-lower response; with no overlapping incumbent at all
the candidate is appended. -/
theorem harris_nms_step_characterization (kps : List KeyPoint) (c : KeyPoint) :
    nmsStep overlapGtZero kps c =
      if stepReplaces overlapGtZero kps c then
        replaceFirstLower overlapGtZero c kps
      else if kps.any (fun k => overlapGtZero c k) then kps
      else kps ++ [c] :=
  nmsStep_eq overlapGtZero kps c

/-- C6 counterexample: a pixel whose normalized response `241/2 = 120.5`
strictly exceeds the threshold 120 yields NO keypoint, because the source
compares the int-truncated response (`(int)120.5 = 120`) against the
threshold; likewise the stored response would be the truncated value, not
the normalized one. -/
theorem harris_truncation_cex :
    (120 : ℚ) < (241 : ℚ) / 2 ∧
      detKeypointsHarris [] [[(241 : ℚ) / 2]] = [] :=
  ⟨by norm_num, by with_unfolding_all rfl⟩

/-- C6 (amended): the Harris extraction scans all pixels in row-major order
and builds, for every pixel whose int-truncated normalized response
strictly exceeds the threshold, a candidate at `pt = (j, i)` with
`size = 2 * apertureSize` and response equal to the truncated value, then
folds non-maximum suppression over that candidate sequence; a 5×5 grid with
a single pixel of normalized response 200 and threshold 120 yields exactly
the one keypoint at that pixel. -/
theorem harris_scan_builds_candidates :
    (∀ (minResp : Int) (keypoints : List KeyPoint) (dst_norm : List (List ℚ)),
      detKeypointsHarrisWith minResp keypoints dst_norm =
        (candidatesOf minResp dst_norm).foldl (nmsStep overlapGtZero)
          keypoints) ∧
    candidatesOf 120
        [[0, 0, 0, 0, 0], [0, 0, 0, 0, 0], [0, 0, 200, 0, 0],
          [0, 0, 0, 0, 0], [0, 0, 0, 0, 0]] = [⟨2, 2, 6, 200⟩] ∧
    detKeypointsHarris []
        [[0, 0, 0, 0, 0], [0, 0, 0, 0, 0], [0, 0, 200, 0, 0],
          [0, 0, 0, 0, 0], [0, 0, 0, 0, 0]] = [⟨2, 2, 6, 200⟩] :=
  ⟨detKeypointsHarrisWith_eq, by with_unfolding_all rfl,
    by with_unfolding_all rfl⟩

theorem filterMap_length_le {α β : Type} (f g : α → Option β)
    (h : ∀ a, (f a).isSome = true → (g a).isSome = true) :
    ∀ l : List α, (l.filterMap f).length ≤ (l.filterMap g).length := by
  intro l
  induction l with
  | nil => simp
  | cons a as ih =>
    cases hf : f a with
    | none =>
      cases hg : g a with
      | none => simpa [List.filterMap_cons, hf, hg] using ih
      | some b =>
        simp only [List.filterMap_cons, hf, hg, List.length_cons]
        omega
    | some b =>
      cases hg : g a with
      | none =>
        have := h a (by simp [hf])
        simp [hg] at this
      | some b2 =>
        simp only [List.filterMap_cons, hf, hg, List.length_cons]
        omega

/-- C4 counterexample: on this grid, raising the response threshold from
120 to 130 INCREASES the post-NMS keypoint count (from 2 to 3): the weak
response-125 pixel, present only at the lower threshold, gets replaced by a
stronger overlapping candidate whose relocated position then suppresses a
later candidate that survives at the higher threshold. -/
theorem harris_threshold_count_monotone_cex :
    (120 : Int) < 130 ∧
      (detKeypointsHarrisWith 120 []
        [[125, 0, 0, 0, 0, 0, 0, 0, 0, 0, 150],
          [0, 0, 0, 135],
          [0, 0, 0, 0, 0, 0, 0, 160],
          [0, 0, 0, 0, 0, 0, 0, 0, 0, 0, 0, 0, 0, 140]]).length <
      (detKeypointsHarrisWith 130 []
        [[125, 0, 0, 0, 0, 0, 0, 0, 0, 0, 150],
          [0, 0, 0, 135],
          [0, 0, 0, 0, 0, 0, 0, 160],
          [0, 0, 0, 0, 0, 0, 0, 0, 0, 0, 0, 0, 0, 140]]).length :=
  ⟨by decide, by with_unfolding_all decide⟩

/-- C4 (amended): for thresholds `t1 ≤ t2` on the same response grid, the
PRE-NMS candidate count at `t2` is at most that at `t1`; the post-NMS
keypoint count is not monotone in the threshold, as the counterexample
shows. -/
theorem harris_candidate_count_antitone (dst_norm : List (List ℚ))
    (t1 t2 : Int) (h : t1 ≤ t2) :
    (candidatesOf t2 dst_norm).length ≤ (candidatesOf t1 dst_norm).length := by
  unfold candidatesOf
  refine filterMap_length_le _ _ ?_ (pixelsOf dst_norm)
  intro px hpx
  simp only [harrisCand] at hpx ⊢
  by_cases h2 : t2 < ratTrunc px.2.2
  · have h1 : t1 < ratTrunc px.2.2 := lt_of_le_of_lt h h2
    simp [h1]
  · simp [h2] at hpx

/-- C4 witness: concrete thresholds 120 ≤ 130 on a one-pixel grid. -/
theorem harris_candidate_count_antitone_witness :
    (120 : Int) ≤ 130 ∧
      (candidatesOf 130 [[125]]).length ≤ (candidatesOf 120 [[125]]).length :=
  ⟨by decide, harris_candidate_count_antitone [[125]] 120 130 (by decide)⟩

theorem replaceFirstLower_mem (ovlGt : KeyPoint → KeyPoint → Bool)
    (c : KeyPoint) :
    ∀ (l : List KeyPoint) (k : KeyPoint), k ∈ l →
      k ∈ replaceFirstLower ovlGt c l ∨
        (ovlGt c k = true ∧ k.response < c.response) := by
  intro l
  induction l with
  | nil => intro k hk; cases hk
  | cons k0 rest ih =>
    intro k hk
    by_cases hc : (ovlGt c k0 && decide (k0.response < c.response)) = true
    · rcases List.mem_cons.mp hk with he | hm
      · right
        subst he
        simpa [Bool.and_eq_true, decide_eq_true_eq] using hc
      · left
        simp only [replaceFirstLower, if_pos hc]
        exact List.mem_cons_of_mem c hm
    · rcases List.mem_cons.mp hk with he | hm
      · left
        subst he
        simp [replaceFirstLower, hc]
      · rcases ih k hm with h | h
        · left
          simp only [replaceFirstLower, if_neg hc]
          exact List.mem_cons_of_mem k0 h
        · right; exact h

theorem nmsStep_mem (ovlGt : KeyPoint → KeyPoint → Bool)
    (kps : List KeyPoint) (c k : KeyPoint) (hk : k ∈ kps) :
    k ∈ nmsStep ovlGt kps c ∨
      (ovlGt c k = true ∧ k.response < c.response) := by
  rw [nmsStep_eq]
  by_cases h1 : stepReplaces ovlGt kps c = true
  · simpa [h1] using replaceFirstLower_mem ovlGt c kps k hk
  · by_cases h2 : (kps.any fun x => ovlGt c x) = true
    · left; simpa [h1, h2] using hk
    · left
      simp only [h1, h2, if_neg, Bool.false_eq_true, not_false_eq_true]
      exact List.mem_append_left _ hk

theorem foldl_nmsStep_mem (ovlGt : KeyPoint → KeyPoint → Bool) :
    ∀ (cs kps : List KeyPoint) (k : KeyPoint), k ∈ kps →
      k ∈ cs.foldl (nmsStep ovlGt) kps ∨
        ∃ c ∈ cs, ovlGt c k = true ∧ k.response < c.response := by
  intro cs
  induction cs with
  | nil => intro kps k hk; left; simpa using hk
  | cons c cs ih =>
    intro kps k hk
    rcases nmsStep_mem ovlGt kps c k hk with h | h
    · rcases ih (nmsStep ovlGt kps c) k h with h2 | h2
      · left; simpa using h2
      · right
        obtain ⟨c2, hc2, hp⟩ := h2
        exact ⟨c2, List.mem_cons_of_mem c hc2, hp⟩
    · right; exact ⟨c, List.mem_cons_self c cs, h⟩

/-- C10: `detKeypointsHarris` appends to the caller-supplied keypoint list
without clearing it, and every pre-existing keypoint is still present in
the result unless some candidate of the scan overlapped it with a strictly
greater response (the only way the loop removes an element is the in-place
replacement `*it = newKeyPoint`); pre-existing keypoints participate as
incumbents throughout the suppression. -/
theorem harris_preexisting_present_or_replaced
    (minResp : Int) (keypoints : List KeyPoint) (dst_norm : List (List ℚ))
    (k : KeyPoint) (hk : k ∈ keypoints) :
    k ∈ detKeypointsHarrisWith minResp keypoints dst_norm ∨
      ∃ c ∈ candidatesOf minResp dst_norm,
        overlapGtZero c k = true ∧ k.response < c.response := by
  rw [detKeypointsHarrisWith_eq]
  exact foldl_nmsStep_mem overlapGtZero (candidatesOf minResp dst_norm)
    keypoints k hk

/-- C10 witness: a pre-existing strong keypoint at the origin suppresses
the weaker candidate of a one-pixel grid and survives the call. -/
theorem harris_preexisting_present_or_replaced_witness :
    (⟨0, 0, 6, 200⟩ : KeyPoint) ∈
        detKeypointsHarrisWith 120 [⟨0, 0, 6, 200⟩] [[150]] ∨
      ∃ c ∈ candidatesOf 120 [[150]],
        overlapGtZero c ⟨0, 0, 6, 200⟩ = true ∧
          (⟨0, 0, 6, 200⟩ : KeyPoint).response < c.response :=
  harris_preexisting_present_or_replaced 120 [⟨0, 0, 6, 200⟩] [[150]]
    ⟨0, 0, 6, 200⟩ (List.mem_singleton.mpr rfl)

theorem insert2_length (acc : List DMatch) (m : DMatch) :
    (insert2 acc m).length = min 2 (acc.length + 1) := by
  match acc with
  | [] => simp [insert2]
  | [a] => by_cases h : m.distance < a.distance <;> simp [insert2, h]
  | a :: b :: t =>
    by_cases h1 : m.distance < a.distance
    · simp [insert2, h1]
    · by_cases h2 : m.distance < b.distance <;> simp [insert2, h1, h2]

theorem foldl_insert2_length :
    ∀ (l acc : List DMatch), acc.length ≤ 2 →
      (l.foldl insert2 acc).length = min 2 (acc.length + l.length) := by
  intro l
  induction l with
  | nil =>
    intro acc h
    simp only [List.foldl_nil, List.length_nil, Nat.add_zero]
    omega
  | cons m rest ih =>
    intro acc h
    rw [List.foldl_cons, ih (insert2 acc m) (by rw [insert2_length]; omega),
      insert2_length]
    simp only [List.length_cons]
    omega

theorem twoNearest_length (dist : List ℚ → List ℚ → ℚ) (qi : ℕ) (d : List ℚ)
    (ref : List (List ℚ)) :
    (twoNearest dist qi d ref).length = min 2 ref.length := by
  unfold twoNearest
  rw [foldl_insert2_length _ _ (by simp)]
  simp

theorem ratioFilter_eq_filterMap :
    ∀ (knn : List (List DMatch)) (acc : List DMatch),
      (∀ m ∈ knn, 1 < m.length) →
      ratioFilter acc knn = some (acc ++ knn.filterMap ratioPick) := by
  intro knn
  induction knn with
  | nil => intro acc _; simp [ratioFilter]
  | cons m rest ih =>
    intro acc h
    have hm : 1 < m.length := h m (List.mem_cons_self m rest)
    have h0 : m.get? 0 = some (m.get ⟨0, by omega⟩) :=
      List.get?_eq_get (by omega)
    have h1 : m.get? 1 = some (m.get ⟨1, by omega⟩) :=
      List.get?_eq_get (by omega)
    have hrest : ∀ m2 ∈ rest, 1 < m2.length :=
      fun m2 hm2 => h m2 (List.mem_cons_of_mem m hm2)
    by_cases hc : (m.get ⟨0, by omega⟩).distance <
        distRatioMin * (m.get ⟨1, by omega⟩).distance
    · simp only [ratioFilter, List.foldlM_cons, ratioFilterStep, h0, h1,
        Option.bind_eq_bind, Option.some_bind, if_pos hc, Option.pure_def]
      have := ih (acc ++ [m.get ⟨0, by omega⟩]) hrest
      simp only [ratioFilter] at this
      rw [this]
      simp only [List.filterMap_cons, ratioPick, h0, h1, if_pos hc,
        List.append_assoc, List.singleton_append]
    · simp only [ratioFilter, List.foldlM_cons, ratioFilterStep, h0, h1,
        Option.bind_eq_bind, Option.some_bind, if_neg hc, Option.pure_def]
      have := ih acc hrest
      simp only [ratioFilter] at this
      rw [this]
      simp only [List.filterMap_cons, ratioPick, h0, h1, if_neg hc]

theorem matchDescriptors_bf_knn (dist : List ℚ → List ℚ → ℚ)
    (descSource descRef : Mat) (matchesIn : List DMatch) :
    matchDescriptors dist descSource descRef matchesIn "MAT_BF" "SEL_KNN" =
      (ratioFilter matchesIn
        (knnMatch2 dist descSource.data descRef.data)).map
        fun ms => (descSource, descRef, ms) := by
  have h1 : ¬(("SEL_KNN" : String) = "SEL_NN") := by decide
  have h2 : (("MAT_BF" : String) = "MAT_BF" ∨
    ("MAT_BF" : String) = "MAT_FLANN") := by decide
  have h3 : ¬(("MAT_BF" : String) = "MAT_FLANN" ∧
      (descSource.mtype ≠ CV_32F ∨ descRef.mtype ≠ CV_32F)) :=
    fun hc => absurd hc.1 (by decide)
  simp [matchDescriptors, h1, h2, h3]

/-- C3: with the `SEL_KNN` selector, `matchDescriptors` retrieves the two
nearest reference descriptors per source descriptor (library search,
modelled from the spec) and emits the best match exactly when
`distance(best) < 0.8 × distance(second-best)` — that is, the output is
the filter of the k-nearest-neighbour lists by `ratioPick`; concretely,
nearest 10 against second-nearest 20 is accepted (10 < 16) and nearest 15
against second 17 is rejected (15 ≥ 13.6). -/
theorem knn_ratio_test_iff :
    (∀ (dist : List ℚ → List ℚ → ℚ) (descSource descRef : Mat),
      2 ≤ descRef.data.length →
      matchDescriptors dist descSource descRef [] "MAT_BF" "SEL_KNN" =
        some (descSource, descRef,
          (knnMatch2 dist descSource.data descRef.data).filterMap
            ratioPick)) ∧
    matchDescriptors dist1 ⟨CV_32F, [[0]]⟩ ⟨CV_32F, [[10], [20]]⟩ []
        "MAT_BF" "SEL_KNN" =
      some (⟨CV_32F, [[0]]⟩, ⟨CV_32F, [[10], [20]]⟩, [⟨0, 0, 10⟩]) ∧
    matchDescriptors dist1 ⟨CV_32F, [[0]]⟩ ⟨CV_32F, [[15], [17]]⟩ []
        "MAT_BF" "SEL_KNN" =
      some (⟨CV_32F, [[0]]⟩, ⟨CV_32F, [[15], [17]]⟩, []) := by
  refine ⟨?_, by with_unfolding_all rfl, by with_unfolding_all rfl⟩
  intro dist descSource descRef h
  rw [matchDescriptors_bf_knn]
  have hinner : ∀ m ∈ knnMatch2 dist descSource.data descRef.data,
      1 < m.length := by
    intro m hm
    unfold knnMatch2 at hm
    obtain ⟨p, _, hp⟩ := List.mem_map.mp hm
    rw [← hp, twoNearest_length]
    omega
  rw [ratioFilter_eq_filterMap _ [] hinner]
  simp

/-- C3 witness: the general conjunct applied to a concrete call with a
two-element reference set. -/
theorem knn_ratio_test_iff_witness :
    2 ≤ (Mat.mk CV_32F [[10], [20]]).data.length ∧
      matchDescriptors dist1 ⟨CV_32F, [[5]]⟩ ⟨CV_32F, [[10], [20]]⟩ []
          "MAT_BF" "SEL_KNN" =
        some (⟨CV_32F, [[5]]⟩, ⟨CV_32F, [[10], [20]]⟩,
          (knnMatch2 dist1 (Mat.mk CV_32F [[5]]).data
            (Mat.mk CV_32F [[10], [20]]).data).filterMap ratioPick) :=
  ⟨by decide,
    knn_ratio_test_iff.1 dist1 ⟨CV_32F, [[5]]⟩ ⟨CV_32F, [[10], [20]]⟩
      (by decide)⟩

theorem ratioFilter_some_length :
    ∀ (knn : List (List DMatch)) (acc l : List DMatch),
      ratioFilter acc knn = some l → l.length ≤ acc.length + knn.length := by
  intro knn
  induction knn with
  | nil =>
    intro acc l h
    simp only [ratioFilter, List.foldlM_nil, Option.pure_def,
      Option.some.injEq] at h
    subst h
    simp
  | cons m rest ih =>
    intro acc l h
    simp only [ratioFilter, List.foldlM_cons] at h
    cases hstep : ratioFilterStep acc m with
    | none =>
      rw [hstep] at h
      simp at h
    | some acc2 =>
      rw [hstep] at h
      simp only [Option.bind_eq_bind, Option.some_bind] at h
      have hlen : acc2.length ≤ acc.length + 1 := by
        unfold ratioFilterStep at hstep
        cases h0 : m.get? 0 with
        | none => rw [h0] at hstep; simp at hstep
        | some m0 =>
          rw [h0] at hstep
          cases h1 : m.get? 1 with
          | none => rw [h1] at hstep; simp at hstep
          | some m1 =>
            rw [h1] at hstep
            simp only [Option.bind_eq_bind, Option.some_bind,
              Option.pure_def, Option.some.injEq] at hstep
            rw [← hstep]
            by_cases hc : m0.distance < distRatioMin * m1.distance <;>
              simp [hc]
      have := ih acc2 l (by simpa [ratioFilter] using h)
      simp only [List.length_cons]
      omega

theorem ratioFilter_short_ref (dist : List ℚ → List ℚ → ℚ) (d : List ℚ)
    (ds ref : List (List ℚ)) (acc : List DMatch) (h : ref.length < 2) :
    ratioFilter acc (knnMatch2 dist (d :: ds) ref) = none := by
  have hfirst : ratioFilterStep acc (twoNearest dist 0 d ref) = none := by
    have hlen : (twoNearest dist 0 d ref).length < 2 := by
      rw [twoNearest_length]
      omega
    have h1 : (twoNearest dist 0 d ref).get? 1 = none :=
      List.get?_eq_none.mpr (by omega)
    have h1g : (twoNearest dist 0 d ref)[1]? = none :=
      List.getElem?_eq_none (by omega)
    unfold ratioFilterStep
    cases h0 : (twoNearest dist 0 d ref).get? 0 with
    | none => simp [h0]
    | some m0 => simp [h0, h1, h1g]
  have hcons : knnMatch2 dist (d :: ds) ref =
      twoNearest dist 0 d ref ::
        ((ds.enumFrom 1).map fun p => twoNearest dist p.1 p.2 ref) := by
    simp [knnMatch2, List.enum_cons]
  rw [hcons]
  simp only [ratioFilter, List.foldlM_cons, hfirst, Option.bind_eq_bind,
    Option.none_bind]

theorem foldl_best_isSome :
    ∀ (l : List DMatch) (b : DMatch),
      (l.foldl
        (fun best m =>
          match best with
          | none => some m
          | some b2 => if m.distance < b2.distance then some m else some b2)
        (some b)).isSome = true := by
  intro l
  induction l with
  | nil => intro b; rfl
  | cons m rest ih =>
    intro b
    by_cases h : m.distance < b.distance <;> simp [List.foldl_cons, h, ih]

theorem nearest1_isSome (dist : List ℚ → List ℚ → ℚ) (qi : ℕ) (d r : List ℚ)
    (rs : List (List ℚ)) :
    (nearest1 dist qi d (r :: rs)).isSome = true := by
  unfold nearest1
  rw [List.enum_cons, List.map_cons, List.foldl_cons]
  exact foldl_best_isSome _ _

theorem filterMap_length_eq {α β : Type} (f : α → Option β) :
    ∀ l : List α, (∀ a ∈ l, (f a).isSome = true) →
      (l.filterMap f).length = l.length := by
  intro l
  induction l with
  | nil => intro _; rfl
  | cons a as ih =>
    intro h
    have ha := h a (List.mem_cons_self a as)
    cases hf : f a with
    | none => rw [hf] at ha; simp at ha
    | some b =>
      rw [List.filterMap_cons, hf]
      simp only [List.length_cons]
      rw [ih fun a2 ha2 => h a2 (List.mem_cons_of_mem a ha2)]

theorem matchNN_length (dist : List ℚ → List ℚ → ℚ) (src : List (List ℚ))
    (r : List ℚ) (rs : List (List ℚ)) :
    (matchNN dist src (r :: rs)).length = src.length := by
  unfold matchNN
  rw [filterMap_length_eq _ _ fun p _ => nearest1_isSome dist p.1 p.2 r rs]
  simp

/-- C9: the ratio-test loop of `matchDescriptors` (`SEL_KNN`) reads index 1
of every per-source k-nearest-neighbour list unconditionally; with a
non-empty source descriptor set and a reference set of fewer than two
descriptors that read is out of bounds, so the call lands in the error
branch of the total embedding. -/
theorem knn_ref_lt_two_out_of_bounds
    (dist : List ℚ → List ℚ → ℚ) (descSource descRef : Mat)
    (matchesIn : List DMatch)
    (hs : descSource.data ≠ []) (hr : descRef.data.length < 2) :
    matchDescriptors dist descSource descRef matchesIn "MAT_BF" "SEL_KNN" =
      none := by
  rw [matchDescriptors_bf_knn]
  obtain ⟨d, ds, hd⟩ : ∃ d ds, descSource.data = d :: ds := by
    cases hsd : descSource.data with
    | nil => exact absurd hsd hs
    | cons d ds => exact ⟨d, ds, rfl⟩
  rw [hd, ratioFilter_short_ref dist d ds _ _ hr]
  rfl

/-- C9 witness: one source descriptor against a single reference
descriptor. -/
theorem knn_ref_lt_two_out_of_bounds_witness :
    (Mat.mk CV_32F [[0]]).data ≠ [] ∧
      (Mat.mk CV_32F [[1]]).data.length < 2 ∧
      matchDescriptors dist1 ⟨CV_32F, [[0]]⟩ ⟨CV_32F, [[1]]⟩ [] "MAT_BF"
        "SEL_KNN" = none :=
  ⟨by simp, by decide,
    knn_ref_lt_two_out_of_bounds dist1 ⟨CV_32F, [[0]]⟩ ⟨CV_32F, [[1]]⟩ []
      (by simp) (by decide)⟩

theorem ratioFilter_knn_le_nn (dist : List ℚ → List ℚ → ℚ)
    (src ref : List (List ℚ)) (l : List DMatch)
    (h : ratioFilter [] (knnMatch2 dist src ref) = some l) :
    l.length ≤ (matchNN dist src ref).length := by
  cases hs : src with
  | nil =>
    rw [hs] at h
    have hl : l = [] := by
      simpa [ratioFilter, knnMatch2] using h.symm
    simp [hl]
  | cons d ds =>
    rw [hs] at h
    cases hr : ref with
    | nil =>
      rw [hr, ratioFilter_short_ref dist d ds [] [] (by simp)] at h
      simp at h
    | cons r rs =>
      rw [hr] at h
      have h1 := ratioFilter_some_length _ _ _ h
      have h2 : (knnMatch2 dist (d :: ds) (r :: rs)).length =
          (d :: ds).length := by
        unfold knnMatch2
        simp
      rw [matchNN_length]
      simp only [List.length_nil] at h1
      omega

/-- C5: on the same inputs (any matcher type), the `SEL_KNN` (ratio-test)
selector produces at most as many matches as the `SEL_NN`
(nearest-neighbour) selector: the ratio test only rejects candidate
matches, never adds any. -/
theorem knn_count_le_nn_count
    (dist : List ℚ → List ℚ → ℚ) (descSource descRef : Mat)
    (matcherType : String) (s1 r1 s2 r2 : Mat) (ms mn : List DMatch)
    (hk : matchDescriptors dist descSource descRef [] matcherType "SEL_KNN" =
      some (s1, r1, ms))
    (hn : matchDescriptors dist descSource descRef [] matcherType "SEL_NN" =
      some (s2, r2, mn)) :
    ms.length ≤ mn.length := by
  have hsel1 : ¬(("SEL_KNN" : String) = "SEL_NN") := by decide
  by_cases hmset : (matcherType = "MAT_BF" ∨ matcherType = "MAT_FLANN")
  · simp only [matchDescriptors, hsel1, hmset, if_true, if_false, ite_true,
      ite_false, iff_true, eq_self_iff_true] at hk hn
    rcases Option.map_eq_some'.mp hk with ⟨l, hl, hfl⟩
    simp only [Prod.mk.injEq] at hfl
    obtain ⟨-, -, hms⟩ := hfl
    simp only [Option.some.injEq, Prod.mk.injEq] at hn
    obtain ⟨-, -, hmn⟩ := hn
    rw [← hms, ← hmn]
    exact ratioFilter_knn_le_nn dist _ _ l hl
  · simp only [matchDescriptors, hsel1, hmset, if_true, if_false, ite_true,
      ite_false] at hk
    exact absurd hk (by simp)

/-- C5 witness: a concrete call where both selectors yield one match. -/
theorem knn_count_le_nn_count_witness :
    ([⟨0, 0, 10⟩] : List DMatch).length ≤
      ([⟨0, 0, 10⟩] : List DMatch).length :=
  knn_count_le_nn_count dist1 ⟨CV_32F, [[0]]⟩ ⟨CV_32F, [[10], [20]]⟩
    "MAT_BF" ⟨CV_32F, [[0]]⟩ ⟨CV_32F, [[10], [20]]⟩ ⟨CV_32F, [[0]]⟩
    ⟨CV_32F, [[10], [20]]⟩ [⟨0, 0, 10⟩] [⟨0, 0, 10⟩]
    (by with_unfolding_all rfl) (by with_unfolding_all rfl)

/-- C8 counterexample: a `MAT_FLANN` call on binary (`CV_8U`) descriptor
matrices converts both caller matrices in place to `CV_32F`, so the
caller's source matrix after the call differs from the one passed in. -/
theorem matchDescriptors_flann_mutates_cex :
    matchDescriptors dist1 ⟨CV_8U, [[1]]⟩ ⟨CV_8U, [[2]]⟩ [] "MAT_FLANN"
        "SEL_NN" =
      some (⟨CV_32F, [[1]]⟩, ⟨CV_32F, [[2]]⟩, [⟨0, 0, 1⟩]) ∧
      (Mat.mk CV_32F [[1]]) ≠ (Mat.mk CV_8U [[1]]) :=
  ⟨by with_unfolding_all rfl, by simp [Mat.mk.injEq, CV_32F, CV_8U]⟩

/-- C8 (amended): `matchDescriptors` never changes the stored descriptor
VALUES, and with `MAT_BF` it leaves both caller matrices entirely
untouched; with `MAT_FLANN` and a non-`CV_32F` input it retags both
matrices to `CV_32F` in place, so the call is not pure with respect to the
caller's matrices, as the counterexample shows. -/
theorem matchDescriptors_preserves_data
    (dist : List ℚ → List ℚ → ℚ) (descSource descRef : Mat)
    (matchesIn : List DMatch) (matcherType selectorType : String)
    (s r : Mat) (ms : List DMatch)
    (h : matchDescriptors dist descSource descRef matchesIn matcherType
      selectorType = some (s, r, ms)) :
    s.data = descSource.data ∧ r.data = descRef.data ∧
      (matcherType = "MAT_BF" → s = descSource ∧ r = descRef) := by
  have key : ∀ x : Mat × Mat × List DMatch,
      matchDescriptors dist descSource descRef matchesIn matcherType
        selectorType = some x →
      x.1 = (if (matcherType = "MAT_FLANN" ∧
          (descSource.mtype ≠ CV_32F ∨ descRef.mtype ≠ CV_32F)) then
        convertTo32F descSource else descSource) ∧
      x.2.1 = (if (matcherType = "MAT_FLANN" ∧
          (descSource.mtype ≠ CV_32F ∨ descRef.mtype ≠ CV_32F)) then
        convertTo32F descRef else descRef) := by
    intro x hx
    simp only [matchDescriptors] at hx
    split at hx
    · split at hx
      · simp only [Option.some.injEq] at hx
        rw [← hx]
        exact ⟨rfl, rfl⟩
      · simp at hx
    · split at hx
      · split at hx
        · rcases Option.map_eq_some'.mp hx with ⟨l, -, hfl⟩
          rw [← hfl]
          exact ⟨rfl, rfl⟩
        · simp at hx
      · simp only [Option.some.injEq] at hx
        rw [← hx]
        exact ⟨rfl, rfl⟩
  obtain ⟨h1, h2⟩ := key (s, r, ms) h
  replace h1 : s = _ := h1
  replace h2 : r = _ := h2
  refine ⟨?_, ?_, ?_⟩
  · rw [h1]
    split <;> rfl
  · rw [h2]
    split <;> rfl
  · intro hbf
    have hnc : ¬(matcherType = "MAT_FLANN" ∧
        (descSource.mtype ≠ CV_32F ∨ descRef.mtype ≠ CV_32F)) := by
      intro hc
      have hf := hc.1
      rw [hbf] at hf
      exact absurd hf (by decide)
    rw [h1, h2, if_neg hnc, if_neg hnc]
    exact ⟨rfl, rfl⟩

/-- C8 witness: a concrete `MAT_BF` call; both matrices come back exactly
as passed in, and the data is preserved. -/
theorem matchDescriptors_preserves_data_witness :
    (Mat.mk CV_32F [[0]]).data = (Mat.mk CV_32F [[0]]).data ∧
      (Mat.mk CV_32F [[3]]).data = (Mat.mk CV_32F [[3]]).data ∧
      (("MAT_BF" : String) = "MAT_BF" →
        (Mat.mk CV_32F [[0]]) = (Mat.mk CV_32F [[0]]) ∧
          (Mat.mk CV_32F [[3]]) = (Mat.mk CV_32F [[3]])) :=
  matchDescriptors_preserves_data dist1 ⟨CV_32F, [[0]]⟩ ⟨CV_32F, [[3]]⟩ []
    "MAT_BF" "SEL_NN" ⟨CV_32F, [[0]]⟩ ⟨CV_32F, [[3]]⟩ [⟨0, 0, 3⟩]
    (by with_unfolding_all rfl)

/-- C7: for every algorithm-type string outside the handled set, the
dispatch of `descKeypoints` and `detKeypointsModern` leaves the
extractor/detector handle unset and raises no explicit error of its own;
the subsequent `compute`/`detect` call on the unset handle fails via the
library's own error path (the `none` branch of the embedding). -/
theorem unsupported_type_leaves_handle_unset :
    (∀ descriptorType : String,
      descriptorType ≠ "BRISK" → descriptorType ≠ "ORB" →
        descriptorType ≠ "AKAZE" →
        selectDescriptorExtractor descriptorType = none ∧
          ∀ (libCompute : DescExtractorKind → List (List ℚ) →
              List KeyPoint → List KeyPoint × Mat)
            (keypoints : List KeyPoint) (img : List (List ℚ)),
            descKeypoints libCompute keypoints img descriptorType = none) ∧
    (∀ detectorType : String,
      detectorType ≠ "FAST" → detectorType ≠ "BRISK" →
        detectorType ≠ "ORB" → detectorType ≠ "AKAZE" →
        selectDetector detectorType = none ∧
          ∀ (libDetect : DetectorKind → List (List ℚ) → List KeyPoint)
            (img : List (List ℚ)),
            detKeypointsModern libDetect img detectorType = none) := by
  constructor
  · intro s h1 h2 h3
    have hsel : selectDescriptorExtractor s = none := by
      unfold selectDescriptorExtractor
      rw [if_neg h1, if_neg h2, if_neg h3]
      split_ifs <;> rfl
    refine ⟨hsel, fun libCompute keypoints img => ?_⟩
    unfold descKeypoints
    rw [hsel]
    rfl
  · intro s h1 h2 h3 h4
    have hsel : selectDetector s = none := by
      unfold selectDetector
      rw [if_neg h1, if_neg h2, if_neg h3, if_neg h4]
      split_ifs <;> rfl
    refine ⟨hsel, fun libDetect img => ?_⟩
    unfold detKeypointsModern
    rw [hsel]
    rfl

/-- C7 witness: the unhandled string "SURF" leaves both handles unset. -/
theorem unsupported_type_leaves_handle_unset_witness :
    selectDescriptorExtractor "SURF" = none ∧
      selectDetector "SURF" = none :=
  ⟨(unsupported_type_leaves_handle_unset.1 "SURF" (by decide) (by decide)
      (by decide)).1,
    (unsupported_type_leaves_handle_unset.2 "SURF" (by decide) (by decide)
      (by decide) (by decide)).1⟩
